import Mathlib

/-!
# Online coffee shop service: catalog and order ledger

A shallow embedding of `main.go`: the two package-level collections (`coffees`,
`orders`), the five request handlers, and the library calls the handlers make
(`strings.ToLower`, `strings.Contains`, `strings.EqualFold`, `uuid.New().String()`,
`time.Now()`, `Time.Add`, `Time.Format(time.RFC3339)`).

Conventions of the embedding

* A Go `string` is a Lean `String` (valid UTF-8 text); Go `==` on strings is Lean `=`.
* Go `int` (`Quantity`) is `Int`; the handlers only compare it with `0` and copy it.
* `float64` (`Price`) is never computed with; it is carried as the exact rational
  value of the literal in the source.
* A handler writing `c.JSON(status, value)` becomes a function returning a `Response`.
* The package-level variable `orders`, the UUID generator and the wall clock are
  explicit: a `State` holds the ledger and how many ids and clock readings have been
  consumed, an `Env` holds what the generator and the clock answer.
-/

set_option autoImplicit false

namespace CoffeeShop

/-! ## Data model -/

/-- The Go struct `Coffee` (the field `Type` is spelled `Type_`, `Type` being reserved). -/
structure Coffee where
  ID : String
  Name : String
  Type_ : String
  Price : Rat
  Description : String
  deriving DecidableEq, Repr

/-- The Go struct `Order`. -/
structure Order where
  OrderID : String
  CoffeeID : String
  Quantity : Int
  CreatedAt : String
  EstimatedDelivery : String
  Status : String
  deriving DecidableEq, Repr

/-- The package-level catalog `var coffees`. No handler assigns to it. -/
def coffees : List Coffee :=
  [ { ID := "c001", Name := "Espresso", Type_ := "Espresso", Price := 60,
      Description := "เข้มข้น กลมกล่อม" },
    { ID := "c002", Name := "Americano", Type_ := "Espresso", Price := 65,
      Description := "เอสเพรสโซ่ผสมน้ำร้อน" },
    { ID := "c003", Name := "Latte", Type_ := "Latte", Price := 75,
      Description := "เอสเพรสโซ่ผสมนมร้อน" } ]

/-- The initial value of the package-level ledger `var orders`. -/
def orders : List Order :=
  [ { OrderID := "o12345",
      CoffeeID := "c003",
      Quantity := 2,
      CreatedAt := "2025-03-03T15:30:45+07:00",
      EstimatedDelivery := "2025-03-03T15:40:45+07:00",
      Status := "In Progress" } ]

/-- What a handler hands to `c.JSON`: the serialised value. `coffees` is the bare array
of `getAllCoffees`, `search` the object `{"coffees": [...]}`, `error` the object
`{"error": msg}`. -/
inductive Body where
  | coffees (cs : List Coffee)
  | coffee (c : Coffee)
  | search (results : List Coffee)
  | order (o : Order)
  | error (msg : String)
  deriving DecidableEq, Repr

/-- A response: HTTP status code and body. -/
structure Response where
  status : Nat
  body : Body
  deriving DecidableEq, Repr

/-! ## Library: package `strings` -/

/-- The part of the Unicode tables that the `strings` functions consult for runes outside
ASCII. `toLower` is `unicode.ToLower` on a rune above `unicode.MaxASCII`; `foldOrbit sr tr`
is the outcome of the orbit walk of `strings.EqualFold`
(`r := unicode.SimpleFold(sr); for r != sr && r < tr { r = unicode.SimpleFold(r) }; r == tr`)
for `sr < tr` and `tr` outside ASCII. -/
structure UnicodeTables where
  toLower : Char → Char
  foldOrbit : Char → Char → Bool

namespace unicode

/-- Function `unicode.ToLower`: ASCII is handled inline (`'A'..'Z'` shifted by `'a' - 'A'`),
anything else goes through the tables. -/
def ToLower (U : UnicodeTables) (r : Char) : Char :=
  if r.toNat ≤ 0x7F then
    if 'A'.toNat ≤ r.toNat ∧ r.toNat ≤ 'Z'.toNat then Char.ofNat (r.toNat + ('a'.toNat - 'A'.toNat))
    else r
  else U.toLower r

end unicode

namespace strings

/-- Function `strings.ToLower`: every rune mapped by `unicode.ToLower` (the ASCII fast path of the
library computes the same string on ASCII input). -/
def ToLower (U : UnicodeTables) (s : String) : String :=
  String.mk (s.data.map (unicode.ToLower U))

/-- Whether `substr` starts at some position of `s`: the scan behind `strings.Index`. -/
def indexFrom (substr : List Char) : List Char → Bool
  | [] => substr.isPrefixOf []
  | c :: s => substr.isPrefixOf (c :: s) || indexFrom substr s

/-- Function `strings.Contains(s, substr)`, that is `strings.Index(s, substr) >= 0`. -/
def Contains (s substr : String) : Bool :=
  indexFrom substr.data s.data

/-- One iteration of the loop of `strings.EqualFold` on the runes `sr` of `s` and `tr` of
`t`: equal runes match; otherwise the pair is ordered so that `sr < tr`, an ASCII `tr`
matches only the upper-case letter `sr` it is the lower case of, and any other `tr` is
looked up by the orbit walk. -/
def foldRune (U : UnicodeTables) (sr tr : Char) : Bool :=
  if tr = sr then true
  else
    let lo := if tr.toNat < sr.toNat then tr else sr
    let hi := if tr.toNat < sr.toNat then sr else tr
    if hi.toNat < 0x80 then
      decide ('A'.toNat ≤ lo.toNat ∧ lo.toNat ≤ 'Z'.toNat ∧
        hi.toNat = lo.toNat + ('a'.toNat - 'A'.toNat))
    else U.foldOrbit lo hi

/-- The loop of `strings.EqualFold` over the runes of both strings: it fails as soon as
one string ends before the other or a pair of runes does not match. -/
def equalFoldLoop (U : UnicodeTables) : List Char → List Char → Bool
  | [], [] => true
  | [], _ :: _ => false
  | _ :: _, [] => false
  | sr :: s, tr :: t => if foldRune U sr tr then equalFoldLoop U s t else false

/-- Function `strings.EqualFold(s, t)`: the loop over the runes of `s` and `t`. -/
def EqualFold (U : UnicodeTables) (s t : String) : Bool :=
  equalFoldLoop U s.data t.data

end strings

/-! ## Catalog handlers -/

/-- Handler `getAllCoffees`: `c.JSON(200, coffees)`. -/
def getAllCoffees : Response :=
  ⟨200, Body.coffees coffees⟩

/-- The `for _, coffee := range coffees` loop of `getCoffeeByID` over the remaining
entries: the first entry whose `ID` equals `id` is sent with 200; when the range is
exhausted the 404 after the loop is sent. -/
def getCoffeeByIDLoop (id : String) : List Coffee → Response
  | [] => ⟨404, Body.error "Coffee not found"⟩
  | coffee :: rest =>
    if coffee.ID = id then ⟨200, Body.coffee coffee⟩
    else getCoffeeByIDLoop id rest

/-- Handler `getCoffeeByID`, with `id` the path parameter `c.Param("id")`. -/
def getCoffeeByID (id : String) : Response :=
  getCoffeeByIDLoop id coffees

/-- The loop of `searchCoffeesHandler`: `results` is the slice built so far, each
matching coffee is appended to it. -/
def searchLoop (U : UnicodeTables) (nameQuery typeQuery : String) :
    List Coffee → List Coffee → List Coffee
  | [], results => results
  | coffee :: rest, results =>
    if (nameQuery = "" ∨
          strings.Contains (strings.ToLower U coffee.Name) (strings.ToLower U nameQuery) = true) ∧
        (typeQuery = "" ∨ strings.EqualFold U coffee.Type_ typeQuery = true) then
      searchLoop U nameQuery typeQuery rest (results ++ [coffee])
    else searchLoop U nameQuery typeQuery rest results

/-- Handler `searchCoffeesHandler`, with `nameQuery = c.Query("name")` and
`typeQuery = c.Query("type")` (an absent parameter is the empty string). -/
def searchCoffeesHandler (U : UnicodeTables) (nameQuery typeQuery : String) : Response :=
  ⟨200, Body.search (searchLoop U nameQuery typeQuery coffees [])⟩

/-- The loop of `findCoffeeByID`: a pointer to (a copy of) the first entry whose `ID`
equals `id`, or `nil`. -/
def findCoffeeByIDLoop (id : String) : List Coffee → Option Coffee
  | [] => none
  | coffee :: rest => if coffee.ID = id then some coffee else findCoffeeByIDLoop id rest

/-- Function `findCoffeeByID`: the loop over the catalog `coffees`. -/
def findCoffeeByID (id : String) : Option Coffee :=
  findCoffeeByIDLoop id coffees

/-! ## Library: package `time` -/

namespace time

/-- Constant `time.Second` as a `time.Duration`: a count of nanoseconds. -/
def Second : Int := 1000000000

/-- Constant `time.Minute`. -/
def Minute : Int := 60 * Second

/-- Method `Time.Add` on an instant given as nanoseconds since the Unix epoch. -/
def Add (t d : Int) : Int := t + d

/-- The second of the Unix epoch an instant falls in. The library keeps whole seconds and
a nanosecond part in `[0, 1e9)`, so this is the floor. -/
def Unix (t : Int) : Int := t / Second

/-- The library's `appendInt`: decimal digits, zero-padded to `width`, after a minus sign
for a negative number. -/
def appendInt (x : Int) (width : Nat) : String :=
  let ds := Nat.toDigits 10 x.natAbs
  let padded := List.replicate (width - ds.length) '0' ++ ds
  if x < 0 then String.mk ('-' :: padded) else String.mk padded

/-- Year, month and day of the proleptic Gregorian calendar for a count of days since
1970-01-01 (what `Time.Date` returns). -/
def civil (days : Int) : Int × Int × Int :=
  let z := days + 719468
  let era := z / 146097
  let doe := z - era * 146097
  let yoe := (doe - doe / 1460 + doe / 36524 - doe / 146096) / 365
  let doy := doe - (365 * yoe + yoe / 4 - yoe / 100)
  let mp := (5 * doy + 2) / 153
  let d := doy - (153 * mp + 2) / 5 + 1
  let m := if mp < 10 then mp + 3 else mp - 9
  (yoe + era * 400 + (if m ≤ 2 then 1 else 0), m, d)

/-- The zone suffix of the layout element `Z07:00`: `Z` at offset zero; otherwise the
offset is converted to whole minutes by `zone := offset / 60`, a division that truncates
toward zero, and the sign printed is the sign of `zone` (so an offset of less than a minute
west of UTC prints `+00:00`), followed by hours and minutes of its absolute value. -/
def formatZone (offset : Int) : String :=
  if offset = 0 then "Z"
  else
    let zone : Int :=
      if offset < 0 then -((offset.natAbs / 60 : Nat) : Int) else ((offset.natAbs / 60 : Nat) : Int)
    if zone < 0 then "-" ++ appendInt ((-zone) / 60) 2 ++ ":" ++ appendInt ((-zone) % 60) 2
    else "+" ++ appendInt (zone / 60) 2 ++ ":" ++ appendInt (zone % 60) 2

/-- Method `t.Format(time.RFC3339)`, layout `2006-01-02T15:04:05Z07:00`, for an instant `t` in
nanoseconds since the Unix epoch shown in a location whose offset from UTC, in seconds, at
Unix second `u` is `zoneOffset u`. The fraction of the second is dropped. -/
def FormatRFC3339 (zoneOffset : Int → Int) (t : Int) : String :=
  let offset := zoneOffset (Unix t)
  let abs := Unix t + offset
  let date := civil (abs / 86400)
  let secs := abs % 86400
  appendInt date.1 4 ++ "-" ++ appendInt date.2.1 2 ++ "-" ++ appendInt date.2.2 2 ++ "T" ++
    appendInt (secs / 3600) 2 ++ ":" ++ appendInt (secs % 3600 / 60) 2 ++ ":" ++
    appendInt (secs % 60) 2 ++ formatZone offset

/-- The number written by a run of decimal digits; `none` if some character is not a
digit. -/
def atoi (cs : List Char) : Option Nat :=
  cs.foldlM (fun acc c => if c.isDigit then some (10 * acc + (c.toNat - '0'.toNat)) else none) 0

/-- The helper `parseUint` of the library's RFC 3339 parser: the number written by the
digits, provided it lies between `lo` and `hi`. -/
def parseUint (cs : List Char) (lo hi : Nat) : Option Nat :=
  match atoi cs with
  | some x => if lo ≤ x ∧ x ≤ hi then some x else none
  | none => none

/-- The library's `isLeap`. -/
def isLeap (year : Nat) : Bool :=
  year % 4 = 0 ∧ (year % 100 ≠ 0 ∨ year % 400 = 0)

/-- The library's `daysIn`: the number of days of a month of a year. -/
def daysIn (month year : Nat) : Nat :=
  if month = 2 then (if isLeap year then 29 else 28)
  else if month = 4 ∨ month = 6 ∨ month = 9 ∨ month = 11 then 30
  else 31

/-- Days since 1970-01-01 of a date of the proleptic Gregorian calendar. -/
def daysFromCivil (y m d : Int) : Int :=
  let y := if m ≤ 2 then y - 1 else y
  let era := y / 400
  let yoe := y - era * 400
  let mp := if m ≤ 2 then m + 9 else m - 3
  let doy := (153 * mp + 2) / 5 + d - 1
  let doe := yoe * 365 + yoe / 4 - yoe / 100 + doy
  era * 146097 + doe - 719468

/-- What follows the seconds once an optional fraction, a dot and at least one digit, has
been read. -/
def dropFraction : List Char → List Char
  | '.' :: c :: rest => if c.isDigit then rest.dropWhile Char.isDigit else '.' :: c :: rest
  | cs => cs

/-- The offset in seconds written by a zone suffix: `Z`, or a sign, two digits of hours up
to 23, a colon and two digits of minutes up to 59. -/
def parseZone (zone : List Char) : Option Int :=
  if zone = ['Z'] then some 0
  else if zone.length = 6 then do
    let hr ← parseUint ((zone.drop 1).take 2) 0 23
    let mm ← parseUint ((zone.drop 4).take 2) 0 59
    if (zone.head? = some '-' ∨ zone.head? = some '+') ∧ zone.get? 3 = some ':' then
      let zoneOffset : Int := (((hr * 60 + mm) * 60 : Nat) : Int)
      if zone.head? = some '-' then some (-zoneOffset) else some zoneOffset
    else none
  else none

/-- The instant, in seconds since the Unix epoch, that an RFC 3339 timestamp denotes, as
`time.Parse(time.RFC3339, s)` followed by `Unix()` reads it: year, month, day of that
month, hour, minute and second within their ranges, the separators in place, an optional
fraction of a second (which does not change the second), and the zone. `none` where the
library reports an error. This is how `created_at` and `estimated_delivery` are read back
as times. -/
def ParseRFC3339 (s : String) : Option Int :=
  let cs := s.data
  if cs.length < 19 then none
  else do
    let year ← parseUint (cs.take 4) 0 9999
    let month ← parseUint ((cs.drop 5).take 2) 1 12
    let day ← parseUint ((cs.drop 8).take 2) 1 (daysIn month year)
    let hour ← parseUint ((cs.drop 11).take 2) 0 23
    let min ← parseUint ((cs.drop 14).take 2) 0 59
    let sec ← parseUint ((cs.drop 17).take 2) 0 59
    if cs.get? 4 = some '-' ∧ cs.get? 7 = some '-' ∧ cs.get? 10 = some 'T' ∧
        cs.get? 13 = some ':' ∧ cs.get? 16 = some ':' then do
      let zoneOffset ← parseZone (dropFraction (cs.drop 19))
      some (daysFromCivil year month day * 86400 + hour * 3600 + min * 60 + sec - zoneOffset)
    else none

end time

/-! ## Order ledger -/

/-- What the ledger handlers get from outside the program. -/
structure Env where
  /-- The string `uuid.New().String()` returns on its `k`-th call (counted from 0). -/
  newUUID : Nat → String
  /-- The instant `time.Now()` returns on its `k`-th call inside `createOrderHandler`
  (counted from 0), in nanoseconds since the Unix epoch. -/
  now : Nat → Int
  /-- The offset from UTC, in seconds, of the local time zone at a Unix second. -/
  zoneOffset : Int → Int

/-- The mutable state of the program as the ledger handlers see it. -/
structure State where
  /-- The current value of the package-level slice `orders`. -/
  orders : List Order
  /-- How many ids have been drawn from the UUID generator. -/
  uuidCalls : Nat
  /-- How many times `createOrderHandler` has read the clock. -/
  clockReads : Nat
  deriving DecidableEq, Repr

/-- The state at start-up: the preloaded ledger, nothing consumed. -/
def initState : State := ⟨orders, 0, 0⟩

/-- The anonymous struct `newOrder` that `createOrderHandler` binds the JSON body to. -/
structure NewOrder where
  CoffeeID : String
  Quantity : Int
  deriving DecidableEq, Repr

/-- Handler `createOrderHandler`. `body` is the outcome of `c.ShouldBindJSON(&newOrder)`: `none`
when it returns an error, otherwise the bound struct. Returns the response and the state
afterwards. -/
def createOrderHandler (env : Env) (st : State) (body : Option NewOrder) : Response × State :=
  match body with
  | none => (⟨400, Body.error "Invalid request"⟩, st)
  | some newOrder =>
    if newOrder.Quantity ≤ 0 then
      (⟨400, Body.error "Invalid quantity, must be greater than 0"⟩, st)
    else
      match findCoffeeByID newOrder.CoffeeID with
      | none => (⟨404, Body.error "Coffee not found"⟩, st)
      | some _ =>
        let orderID := env.newUUID st.uuidCalls
        let createdAt := time.FormatRFC3339 env.zoneOffset (env.now st.clockReads)
        let estimatedDelivery := time.FormatRFC3339 env.zoneOffset
          (time.Add (env.now (st.clockReads + 1)) (10 * time.Minute))
        let order : Order :=
          { OrderID := orderID,
            CoffeeID := newOrder.CoffeeID,
            Quantity := newOrder.Quantity,
            CreatedAt := createdAt,
            EstimatedDelivery := estimatedDelivery,
            Status := "Pending" }
        (⟨201, Body.order order⟩,
          { orders := st.orders ++ [order],
            uuidCalls := st.uuidCalls + 1,
            clockReads := st.clockReads + 2 })

/-- The loop of `getOrderByID` over the remaining orders: the first order whose `OrderID`
equals `orderID` is sent with 200; when the range is exhausted the 404 after the loop is
sent. -/
def getOrderByIDLoop (orderID : String) : List Order → Response
  | [] => ⟨404, Body.error "Order not found"⟩
  | order :: rest =>
    if order.OrderID = orderID then ⟨200, Body.order order⟩
    else getOrderByIDLoop orderID rest

/-- Handler `getOrderByID`, with `orderID` the path parameter `c.Param("order_id")`, on the
current ledger. It assigns to nothing. -/
def getOrderByID (st : State) (orderID : String) : Response :=
  getOrderByIDLoop orderID st.orders

/-! ## Library: package `uuid` -/

namespace uuid

/-- Whether `s` has the shape of `UUID.String()`: 36 characters, hyphens at positions 8,
13, 18 and 23, lower-case hexadecimal digits elsewhere. -/
def isCanonical (s : String) : Bool :=
  s.length = 36 ∧
    (List.range 36).all (fun i =>
      match s.data.get? i with
      | none => false
      | some c =>
        if i = 8 ∨ i = 13 ∨ i = 18 ∨ i = 23 then c = '-'
        else c.isDigit || ('a'.toNat ≤ c.toNat ∧ c.toNat ≤ 'f'.toNat))

end uuid

/-! ## The service as a whole -/

/-- A request to one of the five routes registered in `main`, already parsed by the
framework. -/
inductive Request where
  | getAllCoffees
  | getCoffeeByID (id : String)
  | searchCoffees (nameQuery typeQuery : String)
  | createOrder (body : Option NewOrder)
  | getOrderByID (orderID : String)

/-- Dispatch of one request to its handler. Only `createOrderHandler` can change the
state. -/
def handle (U : UnicodeTables) (env : Env) (st : State) : Request → Response × State
  | Request.getAllCoffees => (getAllCoffees, st)
  | Request.getCoffeeByID id => (getCoffeeByID id, st)
  | Request.searchCoffees nameQuery typeQuery => (searchCoffeesHandler U nameQuery typeQuery, st)
  | Request.createOrder body => createOrderHandler env st body
  | Request.getOrderByID orderID => (getOrderByID st orderID, st)

/-- Requests served one after the other: the responses in order, and the final state. -/
def serve (U : UnicodeTables) (env : Env) : State → List Request → List Response × State
  | st, [] => ([], st)
  | st, req :: reqs =>
    let out := handle U env st req
    let tail := serve U env out.2 reqs
    (out.1 :: tail.1, tail.2)

/-- The orders returned by the successful creations among a list of responses (201 is
sent by `createOrderHandler` only). -/
def createdOrders : List Response → List Order
  | [] => []
  | r :: rs =>
    if r.status = 201 then
      match r.body with
      | Body.order o => o :: createdOrders rs
      | _ => createdOrders rs
    else createdOrders rs

/-! ## Specification-side definitions -/

/-- The condition under which the loop of `searchCoffeesHandler` keeps a product, as a
Boolean function of the product: the handler's own test, evaluated with the library
functions `strings.ToLower`, `strings.Contains` and `strings.EqualFold`. -/
def specMatches (U : UnicodeTables) (nameFilter categoryFilter : String) (p : Coffee) : Bool :=
  (decide (nameFilter = "") ||
      strings.Contains (strings.ToLower U p.Name) (strings.ToLower U nameFilter)) &&
    (decide (categoryFilter = "") || strings.EqualFold U p.Type_ categoryFilter)

/-- The time from `created_at` to `estimated_delivery` of an order, in seconds, both
fields read back as the instants they denote; `none` if a field is not a timestamp. -/
def deliveryGap (o : Order) : Option Int :=
  match time.ParseRFC3339 o.CreatedAt, time.ParseRFC3339 o.EstimatedDelivery with
  | some created, some estimated => some (estimated - created)
  | _, _ => none

/-- A generator that answers two different canonical ids, then repeats the second; clock
and location as in `tickEnv`. -/
def twoIdEnv : Env :=
  { newUUID := fun k =>
      if k = 0 then "7c9e6679-7425-40de-944b-e07fc1f90ae7"
      else "16fd2706-8baf-433b-82eb-8c7fada847da",
    now := fun k => 999999999 + k,
    zoneOffset := fun _ => 0 }

/-- A clock that advances by one nanosecond per reading and is read for the first time in
the last nanosecond of Unix second 0, in a location at UTC; the generator answers the same
id at every call. -/
def tickEnv : Env :=
  { newUUID := fun _ => "7c9e6679-7425-40de-944b-e07fc1f90ae7",
    now := fun k => 999999999 + k,
    zoneOffset := fun _ => 0 }

/-- Invariant of the ledger: its ids are the preloaded `o12345` followed by the ids drawn from the
generator so far, in the order they were drawn. -/
def LedgerIds (env : Env) (st : State) : Prop :=
  st.orders.map Order.OrderID = "o12345" :: (List.range st.uuidCalls).map env.newUUID

/-- Whether the characters `cs` spell the characters `base` up to the case of each letter:
same length, and each character is the lower-case or the upper-case form of the character
of `base` at its position. -/
def caseVariantChars : List Char → List Char → Bool
  | [], [] => true
  | [], _ :: _ => false
  | _ :: _, [] => false
  | b :: base, c :: cs => (c = b.toLower ∨ c = b.toUpper) && caseVariantChars base cs

/-- Whether `s` is a case variant of `base`: each letter independently upper or lower
case. -/
def isCaseVariantOf (base s : String) : Bool :=
  caseVariantChars base.data s.data

/-- The conditions of the data model on an order of the ledger: a positive quantity, the
id of a catalog product, and one of the four statuses. -/
def ValidOrder (o : Order) : Prop :=
  0 < o.Quantity ∧ (∃ p ∈ coffees, p.ID = o.CoffeeID) ∧
    (o.Status = "Pending" ∨ o.Status = "In Progress" ∨ o.Status = "Completed" ∨
      o.Status = "Cancelled")

/-- The first catalog entry whose id equals `id`, in the words of the specification. -/
def specFirstWithID (id : String) : Option Coffee :=
  coffees.find? (fun c => decide (c.ID = id))

/-- Unicode tables that leave every rune outside ASCII alone and fold no two of them. -/
def plainTables : UnicodeTables :=
  ⟨fun r => r, fun _ _ => false⟩

/-- Lower-casing of one character as the specification means it: an ASCII character is
mapped by the standard `Char.toLower`, any other character by the Unicode tables. -/
def specLowerChar (U : UnicodeTables) (c : Char) : Char :=
  if c.toNat < 128 then c.toLower else U.toLower c

/-- The characters of a string, case-folded to lower case. -/
def specLower (U : UnicodeTables) (s : String) : List Char :=
  s.data.map (specLowerChar U)

/-- Two characters are equal up to case: two ASCII characters when their standard lower-case
forms coincide, otherwise when they are the same character or the Unicode tables put them
in one case-folding orbit. -/
def CaseInsensitiveEqChar (U : UnicodeTables) (a b : Char) : Prop :=
  if a.toNat < 128 ∧ b.toNat < 128 then a.toLower = b.toLower
  else a = b ∨
    U.foldOrbit (if a.toNat ≤ b.toNat then a else b) (if a.toNat ≤ b.toNat then b else a) = true

/-- The match condition of `search` in the words of the specification, with no reference
to the handler or to the library functions it calls: the name filter is empty or the
case-folded filter occurs as a contiguous run of characters (`List.IsInfix`) in the
case-folded name, and the category filter is empty or has the length of the category and
equals it character by character up to case (`List.Forall₂`). -/
def SpecMatches (U : UnicodeTables) (nameFilter categoryFilter : String) (p : Coffee) : Prop :=
  (nameFilter = "" ∨ specLower U nameFilter <:+: specLower U p.Name) ∧
    (categoryFilter = "" ∨
      List.Forall₂ (CaseInsensitiveEqChar U) p.Type_.data categoryFilter.data)

/-! ## Lemmas on the lookup loops -/

theorem findCoffeeByIDLoop_none (id : String) (cs : List Coffee)
    (h : ∀ p ∈ cs, p.ID ≠ id) : findCoffeeByIDLoop id cs = none := by
  induction cs with
  | nil => rfl
  | cons c rest ih =>
    have hc : c.ID ≠ id := h c (List.mem_cons_self _ _)
    simp only [findCoffeeByIDLoop, if_neg hc]
    exact ih (fun p hp => h p (List.mem_cons_of_mem _ hp))

theorem findCoffeeByIDLoop_some (id : String) (cs : List Coffee)
    (h : ∃ p ∈ cs, p.ID = id) : ∃ c, findCoffeeByIDLoop id cs = some c := by
  induction cs with
  | nil => obtain ⟨p, hp, _⟩ := h; cases hp
  | cons c rest ih =>
    by_cases hc : c.ID = id
    · exact ⟨c, by simp only [findCoffeeByIDLoop, if_pos hc]⟩
    · obtain ⟨p, hp, hpid⟩ := h
      have hrest : p ∈ rest := by
        rcases List.mem_cons.mp hp with rfl | h'
        · exact absurd hpid hc
        · exact h'
      obtain ⟨c', hc'⟩ := ih ⟨p, hrest, hpid⟩
      exact ⟨c', by simp only [findCoffeeByIDLoop, if_neg hc, hc']⟩

theorem getCoffeeByIDLoop_none (id : String) (cs : List Coffee)
    (h : ∀ p ∈ cs, p.ID ≠ id) :
    getCoffeeByIDLoop id cs = ⟨404, Body.error "Coffee not found"⟩ := by
  induction cs with
  | nil => rfl
  | cons c rest ih =>
    have hc : c.ID ≠ id := h c (List.mem_cons_self _ _)
    simp only [getCoffeeByIDLoop, if_neg hc]
    exact ih (fun p hp => h p (List.mem_cons_of_mem _ hp))

theorem getCoffeeByIDLoop_mem (cs : List Coffee) (hnd : (cs.map Coffee.ID).Nodup)
    (p : Coffee) (hp : p ∈ cs) : getCoffeeByIDLoop p.ID cs = ⟨200, Body.coffee p⟩ := by
  induction cs with
  | nil => cases hp
  | cons c rest ih =>
    rw [List.map_cons, List.nodup_cons] at hnd
    rcases List.mem_cons.mp hp with rfl | h'
    · simp only [getCoffeeByIDLoop, if_true]
    · have hc : c.ID ≠ p.ID := fun e => hnd.1 (e ▸ List.mem_map_of_mem Coffee.ID h')
      simp only [getCoffeeByIDLoop, if_neg hc]
      exact ih hnd.2 h'

theorem getOrderByIDLoop_none (id : String) (os : List Order)
    (h : ∀ o ∈ os, o.OrderID ≠ id) :
    getOrderByIDLoop id os = ⟨404, Body.error "Order not found"⟩ := by
  induction os with
  | nil => rfl
  | cons o rest ih =>
    have ho : o.OrderID ≠ id := h o (List.mem_cons_self _ _)
    simp only [getOrderByIDLoop, if_neg ho]
    exact ih (fun p hp => h p (List.mem_cons_of_mem _ hp))

theorem getOrderByIDLoop_found (id : String) (os : List Order)
    (h : ∃ o ∈ os, o.OrderID = id) :
    ∃ o ∈ os, o.OrderID = id ∧ getOrderByIDLoop id os = ⟨200, Body.order o⟩ := by
  induction os with
  | nil => obtain ⟨o, ho, _⟩ := h; cases ho
  | cons o rest ih =>
    by_cases ho : o.OrderID = id
    · exact ⟨o, List.mem_cons_self _ _, ho, by simp only [getOrderByIDLoop, if_pos ho]⟩
    · obtain ⟨p, hp, hpid⟩ := h
      have hrest : p ∈ rest := by
        rcases List.mem_cons.mp hp with rfl | h'
        · exact absurd hpid ho
        · exact h'
      obtain ⟨o', ho', hid, hget⟩ := ih ⟨p, hrest, hpid⟩
      exact ⟨o', List.mem_cons_of_mem _ ho', hid, by
        simp only [getOrderByIDLoop, if_neg ho, hget]⟩

theorem getOrderByIDLoop_append_fresh (o : Order) (os : List Order)
    (h : ∀ o' ∈ os, o'.OrderID ≠ o.OrderID) :
    getOrderByIDLoop o.OrderID (os ++ [o]) = ⟨200, Body.order o⟩ := by
  induction os with
  | nil => simp only [List.nil_append, getOrderByIDLoop, if_true]
  | cons c rest ih =>
    have hc : c.OrderID ≠ o.OrderID := h c (List.mem_cons_self _ _)
    simp only [List.cons_append, getOrderByIDLoop, if_neg hc]
    exact ih (fun p hp => h p (List.mem_cons_of_mem _ hp))

theorem coffees_ids_nodup : (coffees.map Coffee.ID).Nodup := by
  decide

/-! ## Lemmas on `createOrderHandler` -/

/-- The only way `createOrderHandler` answers 201: the order it returns is the order it
appended, built from the next id of the generator and the next two clock readings. -/
theorem createOrderHandler_created (env : Env) (st : State) (body : Option NewOrder)
    (o : Order) (h : (createOrderHandler env st body).1 = ⟨201, Body.order o⟩) :
    (createOrderHandler env st body).2 =
        ⟨st.orders ++ [o], st.uuidCalls + 1, st.clockReads + 2⟩ ∧
      o.OrderID = env.newUUID st.uuidCalls ∧ o.Status = "Pending" ∧
      ∃ newOrder, body = some newOrder ∧ 0 < newOrder.Quantity ∧
        o.CoffeeID = newOrder.CoffeeID ∧ o.Quantity = newOrder.Quantity ∧
        findCoffeeByID newOrder.CoffeeID ≠ none := by
  cases body with
  | none =>
    have h1 : (400 : Nat) = 201 := congrArg Response.status h
    exact absurd h1 (by decide)
  | some newOrder =>
    by_cases hq : newOrder.Quantity ≤ 0
    · simp only [createOrderHandler, if_pos hq] at h
      have h1 : (400 : Nat) = 201 := congrArg Response.status h
      exact absurd h1 (by decide)
    · cases hf : findCoffeeByID newOrder.CoffeeID with
      | none =>
        simp only [createOrderHandler, if_neg hq, hf] at h
        have h1 : (404 : Nat) = 201 := congrArg Response.status h
        exact absurd h1 (by decide)
      | some c =>
        simp only [createOrderHandler, if_neg hq, hf] at h
        have ho := Body.order.inj (Response.mk.inj h).2
        subst ho
        refine ⟨?_, rfl, rfl, newOrder, rfl, not_le.mp hq, rfl, rfl, ?_⟩
        · simp only [createOrderHandler, if_neg hq, hf]
        · rw [hf]; exact Option.some_ne_none c

/-- A bound body with a positive quantity and a coffee id that resolves is accepted. -/
theorem createOrderHandler_accepts (env : Env) (st : State) (coffeeID : String) (quantity : Int)
    (hq : 0 < quantity) (hc : ∃ p ∈ coffees, p.ID = coffeeID) :
    createOrderHandler env st (some ⟨coffeeID, quantity⟩) =
      (⟨201, Body.order
          { OrderID := env.newUUID st.uuidCalls,
            CoffeeID := coffeeID,
            Quantity := quantity,
            CreatedAt := time.FormatRFC3339 env.zoneOffset (env.now st.clockReads),
            EstimatedDelivery := time.FormatRFC3339 env.zoneOffset
              (time.Add (env.now (st.clockReads + 1)) (10 * time.Minute)),
            Status := "Pending" }⟩,
        { orders := st.orders ++
            [{ OrderID := env.newUUID st.uuidCalls,
               CoffeeID := coffeeID,
               Quantity := quantity,
               CreatedAt := time.FormatRFC3339 env.zoneOffset (env.now st.clockReads),
               EstimatedDelivery := time.FormatRFC3339 env.zoneOffset
                 (time.Add (env.now (st.clockReads + 1)) (10 * time.Minute)),
               Status := "Pending" }],
          uuidCalls := st.uuidCalls + 1,
          clockReads := st.clockReads + 2 }) := by
  obtain ⟨c, hfind⟩ := findCoffeeByIDLoop_some coffeeID coffees hc
  have hfind' : findCoffeeByID coffeeID = some c := hfind
  simp only [createOrderHandler, if_neg (not_le.mpr hq), hfind']

/-! ## Lemmas on sequences of requests -/

theorem getCoffeeByIDLoop_status (id : String) (cs : List Coffee) :
    (getCoffeeByIDLoop id cs).status ≠ 201 := by
  induction cs with
  | nil => simp [getCoffeeByIDLoop]
  | cons c rest ih =>
    by_cases hc : c.ID = id
    · simp [getCoffeeByIDLoop, hc]
    · simpa [getCoffeeByIDLoop, hc] using ih

theorem getOrderByIDLoop_status (id : String) (os : List Order) :
    (getOrderByIDLoop id os).status ≠ 201 := by
  induction os with
  | nil => simp [getOrderByIDLoop]
  | cons o rest ih =>
    by_cases ho : o.OrderID = id
    · simp [getOrderByIDLoop, ho]
    · simpa [getOrderByIDLoop, ho] using ih

/-- Every response of `createOrderHandler` other than a 201 with an order leaves the state
as it was. -/
theorem createOrderHandler_cases (env : Env) (st : State) (body : Option NewOrder) :
    (∃ o, (createOrderHandler env st body).1 = ⟨201, Body.order o⟩) ∨
      ((createOrderHandler env st body).1.status ≠ 201 ∧ (createOrderHandler env st body).2 = st) := by
  cases body with
  | none => right; simp [createOrderHandler]
  | some newOrder =>
    by_cases hq : newOrder.Quantity ≤ 0
    · right; simp [createOrderHandler, hq]
    · cases hf : findCoffeeByID newOrder.CoffeeID with
      | none => right; simp [createOrderHandler, hq, hf]
      | some c => left; simp [createOrderHandler, hq, hf]

/-- One request either creates an order, appended to the ledger under the next id of the
generator, or is answered with a status other than 201 and changes nothing. -/
theorem handle_cases (U : UnicodeTables) (env : Env) (st : State) (req : Request) :
    (∃ o, (handle U env st req).1 = ⟨201, Body.order o⟩ ∧
        (handle U env st req).2 = ⟨st.orders ++ [o], st.uuidCalls + 1, st.clockReads + 2⟩ ∧
        o.OrderID = env.newUUID st.uuidCalls) ∨
      ((handle U env st req).1.status ≠ 201 ∧ (handle U env st req).2 = st) := by
  cases req with
  | getAllCoffees => right; simp [handle, getAllCoffees]
  | getCoffeeByID id => right; exact ⟨getCoffeeByIDLoop_status id coffees, rfl⟩
  | searchCoffees n t => right; simp [handle, searchCoffeesHandler]
  | getOrderByID id => right; exact ⟨getOrderByIDLoop_status id st.orders, rfl⟩
  | createOrder body =>
    rcases createOrderHandler_cases env st body with ⟨o, ho⟩ | hno
    · left
      have hc := createOrderHandler_created env st body o ho
      exact ⟨o, ho, hc.1, hc.2.1⟩
    · right; exact hno

/-- The ledger after a run of requests is the ledger before followed by the orders the run
returned with 201, in the order they were returned. -/
theorem serve_orders (U : UnicodeTables) (env : Env) (reqs : List Request) (st : State) :
    (serve U env st reqs).2.orders = st.orders ++ createdOrders (serve U env st reqs).1 := by
  induction reqs generalizing st with
  | nil => simp [serve, createdOrders]
  | cons req reqs ih =>
    simp only [serve]
    rw [ih]
    rcases handle_cases U env st req with ⟨o, hr, hs, _⟩ | ⟨hr, hs⟩
    · rw [hs, hr]
      simp [createdOrders]
    · rw [hs]
      simp [createdOrders, hr]

theorem ledgerIds_initState (env : Env) : LedgerIds env initState := by
  simp [LedgerIds, initState, orders]

theorem serve_ledgerIds (U : UnicodeTables) (env : Env) (reqs : List Request) (st : State)
    (h : LedgerIds env st) :
    LedgerIds env (serve U env st reqs).2 ∧
      (serve U env st reqs).2.uuidCalls ≤ st.uuidCalls + reqs.length := by
  induction reqs generalizing st with
  | nil => exact ⟨h, Nat.le_refl _⟩
  | cons req reqs ih =>
    simp only [serve, List.length_cons]
    rcases handle_cases U env st req with ⟨o, _, hs, hid⟩ | ⟨_, hs⟩
    · have h' : LedgerIds env (handle U env st req).2 := by
        rw [hs]
        unfold LedgerIds at h ⊢
        simp only [List.map_append, List.map_cons, List.map_nil, h, hid, List.range_succ,
          List.cons_append]
      have := ih (handle U env st req).2 h'
      rw [hs] at this ⊢
      exact ⟨this.1, by have := this.2; simp only at this; omega⟩
    · rw [hs]
      have := ih st h
      exact ⟨this.1, by omega⟩

theorem uuid_isCanonical_length (s : String) (h : uuid.isCanonical s = true) : s.length = 36 := by
  unfold uuid.isCanonical at h
  simp only [Bool.decide_and, Bool.and_eq_true, decide_eq_true_eq] at h
  exact h.1

/-- When the ids drawn so far are canonical and pairwise different, a ledger holding
`o12345` and those ids has no id twice. -/
theorem ledgerIds_nodup (env : Env) (st : State) (h : LedgerIds env st)
    (hcanon : ∀ k < st.uuidCalls, uuid.isCanonical (env.newUUID k) = true)
    (hdistinct : ∀ i < st.uuidCalls, ∀ j < st.uuidCalls, env.newUUID i = env.newUUID j → i = j) :
    (st.orders.map Order.OrderID).Nodup := by
  rw [h, List.nodup_cons]
  constructor
  · intro hmem
    obtain ⟨k, hk, hk'⟩ := List.mem_map.mp hmem
    have hlen := uuid_isCanonical_length _ (hcanon k (List.mem_range.mp hk))
    rw [hk'] at hlen
    exact absurd hlen (by decide)
  · refine List.Nodup.map_on ?_ (List.nodup_range _)
    intro x hx y hy e
    exact hdistinct x (List.mem_range.mp hx) y (List.mem_range.mp hy) e

/-- After a run from the initial state, the orders returned with 201 carry, in order, the
ids the generator answered, one per creation. -/
theorem serve_created_ids (U : UnicodeTables) (env : Env) (reqs : List Request) :
    (createdOrders (serve U env initState reqs).1).map Order.OrderID =
        (List.range (serve U env initState reqs).2.uuidCalls).map env.newUUID ∧
      (createdOrders (serve U env initState reqs).1).length =
        (serve U env initState reqs).2.uuidCalls := by
  have hinv := (serve_ledgerIds U env reqs initState (ledgerIds_initState env)).1
  have hord := serve_orders U env reqs initState
  unfold LedgerIds at hinv
  rw [hord] at hinv
  have hids : (createdOrders (serve U env initState reqs).1).map Order.OrderID =
      (List.range (serve U env initState reqs).2.uuidCalls).map env.newUUID := by
    simpa [initState, orders] using hinv
  refine ⟨hids, ?_⟩
  have hlen := congrArg List.length hids
  simpa using hlen

theorem getOrderByIDLoop_append_present (id : String) (o : Order) (os : List Order)
    (h : ∃ o' ∈ os, o'.OrderID = id) :
    getOrderByIDLoop id (os ++ [o]) = getOrderByIDLoop id os := by
  induction os with
  | nil => obtain ⟨o', ho', _⟩ := h; cases ho'
  | cons c rest ih =>
    by_cases hc : c.OrderID = id
    · simp only [List.cons_append, getOrderByIDLoop, if_pos hc]
    · obtain ⟨o', ho', hid⟩ := h
      have hrest : o' ∈ rest := by
        rcases List.mem_cons.mp ho' with rfl | h'
        · exact absurd hid hc
        · exact h'
      simp only [List.cons_append, getOrderByIDLoop, if_neg hc]
      exact ih ⟨o', hrest, hid⟩

/-! ## Lemmas on the search loop -/

/-- The loop of `searchCoffeesHandler` appends to what it was given the coffees of the
range that satisfy `specMatches`, in the order of the range. -/
theorem searchLoop_eq_filter (U : UnicodeTables) (nameQuery typeQuery : String)
    (cs results : List Coffee) :
    searchLoop U nameQuery typeQuery cs results =
      results ++ cs.filter (specMatches U nameQuery typeQuery) := by
  induction cs generalizing results with
  | nil => simp [searchLoop]
  | cons c rest ih =>
    by_cases hm : specMatches U nameQuery typeQuery c = true
    · have hcond : (nameQuery = "" ∨
          strings.Contains (strings.ToLower U c.Name) (strings.ToLower U nameQuery) = true) ∧
          (typeQuery = "" ∨ strings.EqualFold U c.Type_ typeQuery = true) := by
        simpa [specMatches] using hm
      simp only [searchLoop, if_pos hcond, ih, List.filter_cons, hm, if_true,
        List.append_assoc, List.singleton_append]
    · have hcond : ¬ ((nameQuery = "" ∨
          strings.Contains (strings.ToLower U c.Name) (strings.ToLower U nameQuery) = true) ∧
          (typeQuery = "" ∨ strings.EqualFold U c.Type_ typeQuery = true)) := by
        intro hc
        apply hm
        simpa [specMatches] using hc
      simp only [searchLoop, if_neg hcond, ih, List.filter_cons, hm]
      rfl

theorem coffees_nodup : coffees.Nodup := by
  have h := coffees_ids_nodup
  exact List.Nodup.of_map _ h

/-! ## Lemmas on case variants and case folding -/

theorem caseVariantChars_nil (l : List Char) (h : caseVariantChars [] l = true) : l = [] := by
  cases l with
  | nil => rfl
  | cons c cs => simp [caseVariantChars] at h

theorem caseVariantChars_cons (b : Char) (base l : List Char)
    (h : caseVariantChars (b :: base) l = true) :
    ∃ c cs, l = c :: cs ∧ (c = b.toLower ∨ c = b.toUpper) ∧ caseVariantChars base cs = true := by
  cases l with
  | nil => simp [caseVariantChars] at h
  | cons c cs =>
    simp only [caseVariantChars, Bool.and_eq_true, decide_eq_true_eq] at h
    exact ⟨c, cs, rfl, h.1, h.2⟩

/-- Strings that `strings.EqualFold` accepts have the same number of runes. -/
theorem equalFoldLoop_length (U : UnicodeTables) (s t : List Char)
    (h : strings.equalFoldLoop U s t = true) : s.length = t.length := by
  induction s generalizing t with
  | nil =>
    cases t with
    | nil => rfl
    | cons tr t => simp [strings.equalFoldLoop] at h
  | cons sr s ih =>
    cases t with
    | nil => simp [strings.equalFoldLoop] at h
    | cons tr t =>
      by_cases hf : strings.foldRune U sr tr = true
      · simp only [strings.equalFoldLoop, hf, if_true] at h
        simp only [List.length_cons, ih t h]
      · simp [strings.equalFoldLoop, hf] at h

/-- A non-empty category filter whose length is the length of no category in the catalog
matches nothing. -/
theorem searchLoop_length_mismatch (U : UnicodeTables) (nameQuery typeQuery : String)
    (hne : typeQuery ≠ "") (hlen : ∀ p ∈ coffees, p.Type_.length ≠ typeQuery.length) :
    searchCoffeesHandler U nameQuery typeQuery = ⟨200, Body.search []⟩ := by
  simp only [searchCoffeesHandler, searchLoop_eq_filter, List.nil_append]
  have hnil : coffees.filter (specMatches U nameQuery typeQuery) = [] := by
    rw [List.filter_eq_nil_iff]
    intro p hp hm
    simp only [specMatches, Bool.and_eq_true, Bool.or_eq_true, decide_eq_true_eq] at hm
    rcases hm.2 with h1 | h2
    · exact hne h1
    · exact hlen p hp (equalFoldLoop_length U _ _ h2)
  rw [hnil]

/-! ## Lemmas on the ledger invariant -/

theorem findCoffeeByIDLoop_exists (id : String) (cs : List Coffee)
    (h : findCoffeeByIDLoop id cs ≠ none) : ∃ p ∈ cs, p.ID = id := by
  by_contra hno
  apply h
  apply findCoffeeByIDLoop_none
  intro p hp e
  exact hno ⟨p, hp, e⟩

/-- A request answered 201 with an order appended exactly that order, which is valid and
`Pending`. -/
theorem handle_created (U : UnicodeTables) (env : Env) (st : State) (req : Request)
    (o : Order) (h : (handle U env st req).1 = ⟨201, Body.order o⟩) :
    (handle U env st req).2 = ⟨st.orders ++ [o], st.uuidCalls + 1, st.clockReads + 2⟩ ∧
      ValidOrder o ∧ o.Status = "Pending" := by
  have hst : (handle U env st req).1.status = 201 := by rw [h]
  cases req with
  | getAllCoffees => exact absurd hst (by simp [handle, getAllCoffees])
  | getCoffeeByID id => exact absurd hst (getCoffeeByIDLoop_status id coffees)
  | searchCoffees n t => exact absurd hst (by simp [handle, searchCoffeesHandler])
  | getOrderByID id => exact absurd hst (getOrderByIDLoop_status id st.orders)
  | createOrder body =>
    obtain ⟨h1, _, h3, newOrder, _, hq, hcid, hqty, hfind⟩ :=
      createOrderHandler_created env st body o h
    refine ⟨h1, ⟨?_, ?_, Or.inl h3⟩, h3⟩
    · rw [hqty]; exact hq
    · rw [hcid]; exact findCoffeeByIDLoop_exists _ coffees hfind

/-- A request answered with a status other than 201 leaves the state as it was. -/
theorem handle_unchanged (U : UnicodeTables) (env : Env) (st : State) (req : Request)
    (h : (handle U env st req).1.status ≠ 201) : (handle U env st req).2 = st := by
  rcases handle_cases U env st req with ⟨o, hr, _, _⟩ | ⟨_, hs⟩
  · exact absurd (by rw [hr]) h
  · exact hs

theorem mem_createdOrders_cons (o : Order) (r : Response) (rs : List Response)
    (h : o ∈ createdOrders (r :: rs)) : r = ⟨201, Body.order o⟩ ∨ o ∈ createdOrders rs := by
  obtain ⟨status, body⟩ := r
  by_cases hs : status = 201
  · subst hs
    cases body with
    | order o' =>
      simp only [createdOrders, if_true, List.mem_cons] at h
      rcases h with rfl | h
      · left; rfl
      · right; exact h
    | coffees cs => right; simpa [createdOrders] using h
    | coffee c => right; simpa [createdOrders] using h
    | search l => right; simpa [createdOrders] using h
    | error msg => right; simpa [createdOrders] using h
  · right
    simpa [createdOrders, hs] using h

/-- Every order returned with 201 during a run of requests is valid and `Pending`. -/
theorem serve_created_valid (U : UnicodeTables) (env : Env) (reqs : List Request) (st : State) :
    ∀ o ∈ createdOrders (serve U env st reqs).1, ValidOrder o ∧ o.Status = "Pending" := by
  induction reqs generalizing st with
  | nil => intro o ho; simp [serve, createdOrders] at ho
  | cons req reqs ih =>
    intro o ho
    simp only [serve] at ho
    rcases mem_createdOrders_cons o _ _ ho with h | h
    · exact (handle_created U env st req o h).2
    · exact ih _ o h

theorem validOrder_preloaded : ∀ o ∈ orders, ValidOrder o := by
  intro o ho
  simp only [orders, List.mem_singleton] at ho
  subst ho
  exact ⟨by decide, ⟨⟨"c003", "Latte", "Latte", 75, "เอสเพรสโซ่ผสมนมร้อน"⟩, by decide, rfl⟩,
    Or.inr (Or.inl rfl)⟩

/-- The ledger only grows at its end during a run of requests. -/
theorem serve_prefix (U : UnicodeTables) (env : Env) (reqs : List Request) (st : State) :
    st.orders <+: (serve U env st reqs).2.orders := by
  rw [serve_orders]
  exact List.prefix_append _ _

/-! ## Lemmas relating the two catalog lookups -/

theorem getCoffeeByIDLoop_eq_find (id : String) (cs : List Coffee) :
    getCoffeeByIDLoop id cs =
      match findCoffeeByIDLoop id cs with
      | some c => ⟨200, Body.coffee c⟩
      | none => ⟨404, Body.error "Coffee not found"⟩ := by
  induction cs with
  | nil => rfl
  | cons c rest ih =>
    by_cases hc : c.ID = id
    · simp only [getCoffeeByIDLoop, findCoffeeByIDLoop, if_pos hc]
    · simp only [getCoffeeByIDLoop, findCoffeeByIDLoop, if_neg hc, ih]

theorem findCoffeeByIDLoop_eq_find (id : String) (cs : List Coffee) :
    findCoffeeByIDLoop id cs = cs.find? (fun c => decide (c.ID = id)) := by
  induction cs with
  | nil => rfl
  | cons c rest ih =>
    by_cases hc : c.ID = id
    · simp [findCoffeeByIDLoop, hc]
    · simp [findCoffeeByIDLoop, hc, ih]

/-! ## Lemmas relating the library functions to the specification of `search` -/

theorem char_eq_of_toNat_eq (a b : Char) (h : a.toNat = b.toNat) : a = b := by
  rw [← Char.ofNat_toNat a, ← Char.ofNat_toNat b, h]

theorem char_ofNat_toNat_ascii (n : Nat) (h : n < 128) : (Char.ofNat n).toNat = n := by
  interval_cases n <;> rfl

theorem toLower_toNat_ascii (c : Char) (h : c.toNat < 128) :
    c.toLower.toNat = if 65 ≤ c.toNat ∧ c.toNat ≤ 90 then c.toNat + 32 else c.toNat := by
  unfold Char.toLower
  by_cases hu : 65 ≤ c.toNat ∧ c.toNat ≤ 90
  · have hu' : c.toNat ≥ 65 ∧ c.toNat ≤ 90 := hu
    simp only [hu', hu, and_self, if_true]
    exact char_ofNat_toNat_ascii _ (by omega)
  · have hu' : ¬ (c.toNat ≥ 65 ∧ c.toNat ≤ 90) := hu
    simp only [hu', hu, if_false]

/-- The library's `unicode.ToLower` is the lower-casing of the specification. -/
theorem unicode_ToLower_eq_spec (U : UnicodeTables) (r : Char) :
    unicode.ToLower U r = specLowerChar U r := by
  unfold unicode.ToLower specLowerChar Char.toLower
  have hA : 'A'.toNat = 65 := rfl
  have hZ : 'Z'.toNat = 90 := rfl
  have ha : 'a'.toNat = 97 := rfl
  simp only [hA, hZ, ha]
  by_cases h : r.toNat < 128
  · have h' : r.toNat ≤ 0x7F := by omega
    simp only [h, h', if_true]
  · have h' : ¬ r.toNat ≤ 0x7F := by omega
    simp only [h, h', if_false]

theorem strings_ToLower_data (U : UnicodeTables) (s : String) :
    (strings.ToLower U s).data = specLower U s := by
  have hfun : unicode.ToLower U = specLowerChar U := funext (unicode_ToLower_eq_spec U)
  simp only [strings.ToLower, specLower, hfun]

/-- The scan of `strings.Contains` succeeds exactly on a contiguous occurrence. -/
theorem indexFrom_iff_infix (substr s : List Char) :
    strings.indexFrom substr s = true ↔ substr <:+: s := by
  induction s with
  | nil => simp [strings.indexFrom]
  | cons c s ih =>
    simp only [strings.indexFrom, Bool.or_eq_true, List.isPrefixOf_iff_prefix, ih,
      List.infix_cons_iff]

/-- One step of `strings.EqualFold` accepts exactly the pairs of characters that are equal up
to case. -/
theorem foldRune_iff_spec (U : UnicodeTables) (sr tr : Char) :
    strings.foldRune U sr tr = true ↔ CaseInsensitiveEqChar U sr tr := by
  unfold strings.foldRune CaseInsensitiveEqChar
  have hA : 'A'.toNat = 65 := rfl
  have hZ : 'Z'.toNat = 90 := rfl
  have ha : 'a'.toNat = 97 := rfl
  by_cases hboth : sr.toNat < 128 ∧ tr.toNat < 128
  · have hs := toLower_toNat_ascii sr hboth.1
    have ht := toLower_toNat_ascii tr hboth.2
    have hinj : sr.toLower = tr.toLower ↔ sr.toLower.toNat = tr.toLower.toNat :=
      ⟨fun e => by rw [e], char_eq_of_toNat_eq _ _⟩
    simp only [hboth, and_self, if_true, hinj, hs, ht]
    by_cases heq : tr = sr
    · subst heq; simp
    · have hne : tr.toNat ≠ sr.toNat := fun e => heq (char_eq_of_toNat_eq _ _ e)
      simp only [heq, if_false, hA, hZ, ha]
      by_cases hlt : tr.toNat < sr.toNat
      · simp only [hlt, if_true]
        have : sr.toNat < 0x80 := by omega
        simp only [this, if_true, decide_eq_true_eq]
        split_ifs <;> omega
      · simp only [hlt, if_false]
        have : tr.toNat < 0x80 := by omega
        simp only [this, if_true, decide_eq_true_eq]
        split_ifs <;> omega
  · simp only [hboth, if_false]
    by_cases heq : tr = sr
    · subst heq; simp
    · have hne : tr.toNat ≠ sr.toNat := fun e => heq (char_eq_of_toNat_eq _ _ e)
      have heq' : ¬ sr = tr := fun e => heq e.symm
      simp only [heq, heq', if_false, false_or]
      by_cases hlt : tr.toNat < sr.toNat
      · have hle : ¬ sr.toNat ≤ tr.toNat := by omega
        have hhi : ¬ sr.toNat < 0x80 := by omega
        simp only [hlt, hle, if_true, if_false, hhi]
      · have hle : sr.toNat ≤ tr.toNat := by omega
        have hhi : ¬ tr.toNat < 0x80 := by omega
        simp only [hlt, hle, if_true, if_false, hhi]

/-- The loop of `strings.EqualFold` accepts exactly the pairs of strings of equal length
whose characters are pairwise equal up to case. -/
theorem equalFoldLoop_iff_spec (U : UnicodeTables) (s t : List Char) :
    strings.equalFoldLoop U s t = true ↔ List.Forall₂ (CaseInsensitiveEqChar U) s t := by
  induction s generalizing t with
  | nil =>
    cases t with
    | nil => simp [strings.equalFoldLoop]
    | cons tr t => simp [strings.equalFoldLoop]
  | cons sr s ih =>
    cases t with
    | nil => simp [strings.equalFoldLoop]
    | cons tr t =>
      rw [List.forall₂_cons, ← ih t, ← foldRune_iff_spec]
      by_cases hf : strings.foldRune U sr tr = true
      · simp [strings.equalFoldLoop, hf]
      · simp [strings.equalFoldLoop, hf]

/-- The handler's test holds of a product exactly when the specification's condition does. -/
theorem specMatches_iff_SpecMatches (U : UnicodeTables) (nameFilter categoryFilter : String)
    (p : Coffee) :
    specMatches U nameFilter categoryFilter p = true ↔
      SpecMatches U nameFilter categoryFilter p := by
  simp only [specMatches, SpecMatches, Bool.and_eq_true, Bool.or_eq_true, decide_eq_true_eq,
    strings.Contains, strings.EqualFold, indexFrom_iff_infix, equalFoldLoop_iff_spec,
    strings_ToLower_data]

/-! ## Claims -/

/-- C1 (evaluation at the failing input). On the preloaded ledger, with a non-decreasing
clock whose two readings inside the handler are 0.999999999 s and 1.000000000 s after the
Unix epoch, `createOrderHandler` for two units of `c003` answers 201 with
`created_at = 1970-01-01T00:00:00Z` and `estimated_delivery = 1970-01-01T00:10:01Z`: read
back as times the two fields are 601 seconds apart, not the 600 seconds of 10 minutes
that separate the two fields of the preloaded order. -/
theorem createOrderHandler_delivery_gap_601 :
    (∀ k, tickEnv.now k ≤ tickEnv.now (k + 1)) ∧
    (createOrderHandler tickEnv initState (some ⟨"c003", 2⟩)).1 =
      ⟨201, Body.order
        { OrderID := "7c9e6679-7425-40de-944b-e07fc1f90ae7",
          CoffeeID := "c003",
          Quantity := 2,
          CreatedAt := "1970-01-01T00:00:00Z",
          EstimatedDelivery := "1970-01-01T00:10:01Z",
          Status := "Pending" }⟩ ∧
    deliveryGap
        { OrderID := "7c9e6679-7425-40de-944b-e07fc1f90ae7",
          CoffeeID := "c003",
          Quantity := 2,
          CreatedAt := "1970-01-01T00:00:00Z",
          EstimatedDelivery := "1970-01-01T00:10:01Z",
          Status := "Pending" } = some 601 ∧
    deliveryGap
        { OrderID := "7c9e6679-7425-40de-944b-e07fc1f90ae7",
          CoffeeID := "c003",
          Quantity := 2,
          CreatedAt := "1970-01-01T00:00:00Z",
          EstimatedDelivery := "1970-01-01T00:10:01Z",
          Status := "Pending" } ≠ some (time.Unix (10 * time.Minute)) ∧
    orders.map deliveryGap = [some (time.Unix (10 * time.Minute))] := by
  refine ⟨fun k => ?_, by decide, by decide, by decide, by decide⟩
  show (999999999 : Int) + (k : Nat) ≤ 999999999 + ((k + 1 : Nat) : Int)
  omega

/-- C2. Whatever the state and the coffee id, a bound body whose quantity is not positive
is answered 400 `Invalid quantity, must be greater than 0` and the state, the ledger
included, is left as it was. -/
theorem createOrderHandler_rejects_nonpositive_quantity (env : Env) (st : State)
    (coffeeID : String) (quantity : Int) (hq : quantity ≤ 0) :
    createOrderHandler env st (some ⟨coffeeID, quantity⟩) =
      (⟨400, Body.error "Invalid quantity, must be greater than 0"⟩, st) := by
  simp only [createOrderHandler, if_pos hq]

theorem createOrderHandler_rejects_nonpositive_quantity_witness :
    createOrderHandler tickEnv initState (some ⟨"c001", 0⟩) =
        (⟨400, Body.error "Invalid quantity, must be greater than 0"⟩, initState) ∧
      createOrderHandler tickEnv initState (some ⟨"c001", -1⟩) =
        (⟨400, Body.error "Invalid quantity, must be greater than 0"⟩, initState) :=
  ⟨createOrderHandler_rejects_nonpositive_quantity tickEnv initState "c001" 0 (by decide),
    createOrderHandler_rejects_nonpositive_quantity tickEnv initState "c001" (-1) (by decide)⟩

/-- C3. Whatever the state, a bound body with a positive quantity and a coffee id that is
the id of no catalog product is answered 404 `Coffee not found` and the state, the ledger
included, is left as it was. -/
theorem createOrderHandler_unknown_coffee (env : Env) (st : State)
    (coffeeID : String) (quantity : Int) (hq : 0 < quantity)
    (hc : ∀ p ∈ coffees, p.ID ≠ coffeeID) :
    createOrderHandler env st (some ⟨coffeeID, quantity⟩) =
      (⟨404, Body.error "Coffee not found"⟩, st) := by
  have hfind : findCoffeeByID coffeeID = none := findCoffeeByIDLoop_none coffeeID coffees hc
  simp only [createOrderHandler, if_neg (not_le.mpr hq), hfind]

theorem createOrderHandler_unknown_coffee_witness :
    createOrderHandler tickEnv initState (some ⟨"bogus", 1⟩) =
      (⟨404, Body.error "Coffee not found"⟩, initState) :=
  createOrderHandler_unknown_coffee tickEnv initState "bogus" 1 (by decide) (by decide)

/-- C4. Whatever the state, a bound body with a positive quantity and the id of a catalog
product is answered 201 with an order carrying the requested coffee id and quantity and
the status `Pending`, and the ledger afterwards is the ledger before with exactly that
order appended at the end. -/
theorem createOrderHandler_appends_pending_order (env : Env) (st : State)
    (coffeeID : String) (quantity : Int) (hq : 0 < quantity)
    (hc : ∃ p ∈ coffees, p.ID = coffeeID) :
    ∃ o : Order,
      (createOrderHandler env st (some ⟨coffeeID, quantity⟩)).1 = ⟨201, Body.order o⟩ ∧
      o.CoffeeID = coffeeID ∧ o.Quantity = quantity ∧ o.Status = "Pending" ∧
      (createOrderHandler env st (some ⟨coffeeID, quantity⟩)).2.orders = st.orders ++ [o] := by
  rw [createOrderHandler_accepts env st coffeeID quantity hq hc]
  exact ⟨_, rfl, rfl, rfl, rfl, rfl⟩

theorem createOrderHandler_appends_pending_order_witness :
    ∃ o : Order,
      (createOrderHandler tickEnv initState (some ⟨"c003", 2⟩)).1 = ⟨201, Body.order o⟩ ∧
      o.CoffeeID = "c003" ∧ o.Quantity = 2 ∧ o.Status = "Pending" ∧
      (createOrderHandler tickEnv initState (some ⟨"c003", 2⟩)).2.orders =
        initState.orders ++ [o] :=
  createOrderHandler_appends_pending_order tickEnv initState "c003" 2 (by decide)
    ⟨⟨"c003", "Latte", "Latte", 75, "เอสเพรสโซ่ผสมนมร้อน"⟩, by decide, rfl⟩

/-- C5 (counterexample). With a generator that answers the same id twice, two creations
from the initial ledger are both answered 201, and the lookup of the id returned by the
second answers 200 with the order of the first: a different coffee, quantity and creation
time than the order the second creation returned. -/
theorem getOrderByID_after_create_repeated_id :
    (createOrderHandler tickEnv (createOrderHandler tickEnv initState (some ⟨"c003", 2⟩)).2
        (some ⟨"c001", 1⟩)).1 =
      ⟨201, Body.order
        { OrderID := "7c9e6679-7425-40de-944b-e07fc1f90ae7",
          CoffeeID := "c001",
          Quantity := 1,
          CreatedAt := "1970-01-01T00:00:01Z",
          EstimatedDelivery := "1970-01-01T00:10:01Z",
          Status := "Pending" }⟩ ∧
    getOrderByID
        (createOrderHandler tickEnv (createOrderHandler tickEnv initState (some ⟨"c003", 2⟩)).2
          (some ⟨"c001", 1⟩)).2
        "7c9e6679-7425-40de-944b-e07fc1f90ae7" =
      ⟨200, Body.order
        { OrderID := "7c9e6679-7425-40de-944b-e07fc1f90ae7",
          CoffeeID := "c003",
          Quantity := 2,
          CreatedAt := "1970-01-01T00:00:00Z",
          EstimatedDelivery := "1970-01-01T00:10:01Z",
          Status := "Pending" }⟩ ∧
    getOrderByID
        (createOrderHandler tickEnv (createOrderHandler tickEnv initState (some ⟨"c003", 2⟩)).2
          (some ⟨"c001", 1⟩)).2
        "7c9e6679-7425-40de-944b-e07fc1f90ae7" ≠
      ⟨200, Body.order
        { OrderID := "7c9e6679-7425-40de-944b-e07fc1f90ae7",
          CoffeeID := "c001",
          Quantity := 1,
          CreatedAt := "1970-01-01T00:00:01Z",
          EstimatedDelivery := "1970-01-01T00:10:01Z",
          Status := "Pending" }⟩ := by
  refine ⟨by decide, by decide, by decide⟩

/-- C5 (amended). Round trip: whenever `createOrderHandler` answers 201 with an order `o`,
then, if no order of the ledger before had the id of `o`, `getOrderByID` for `o.OrderID` on
the state afterwards answers 200 with an order equal to `o` in every field; and if some
order of the ledger before had that id, it answers what it answered before the creation,
the first such earlier order. -/
theorem getOrderByID_after_create (env : Env) (st : State) (body : Option NewOrder)
    (o : Order) (hcreated : (createOrderHandler env st body).1 = ⟨201, Body.order o⟩) :
    ((∀ o' ∈ st.orders, o'.OrderID ≠ o.OrderID) →
        getOrderByID (createOrderHandler env st body).2 o.OrderID = ⟨200, Body.order o⟩) ∧
      ((∃ o' ∈ st.orders, o'.OrderID = o.OrderID) →
        getOrderByID (createOrderHandler env st body).2 o.OrderID = getOrderByID st o.OrderID ∧
        ∃ o' ∈ st.orders, o'.OrderID = o.OrderID ∧
          getOrderByID (createOrderHandler env st body).2 o.OrderID = ⟨200, Body.order o'⟩) := by
  rw [(createOrderHandler_created env st body o hcreated).1]
  constructor
  · exact getOrderByIDLoop_append_fresh o st.orders
  · intro hex
    have hsame : getOrderByID ⟨st.orders ++ [o], st.uuidCalls + 1, st.clockReads + 2⟩ o.OrderID =
        getOrderByID st o.OrderID := getOrderByIDLoop_append_present o.OrderID o st.orders hex
    refine ⟨hsame, ?_⟩
    obtain ⟨o', ho', hid, hget⟩ := getOrderByIDLoop_found o.OrderID st.orders hex
    exact ⟨o', ho', hid, hsame.trans hget⟩

theorem getOrderByID_after_create_witness :
    getOrderByID (createOrderHandler tickEnv initState (some ⟨"c003", 2⟩)).2
        "7c9e6679-7425-40de-944b-e07fc1f90ae7" =
      ⟨200, Body.order
        { OrderID := "7c9e6679-7425-40de-944b-e07fc1f90ae7",
          CoffeeID := "c003",
          Quantity := 2,
          CreatedAt := "1970-01-01T00:00:00Z",
          EstimatedDelivery := "1970-01-01T00:10:01Z",
          Status := "Pending" }⟩ :=
  (getOrderByID_after_create tickEnv initState (some ⟨"c003", 2⟩)
    { OrderID := "7c9e6679-7425-40de-944b-e07fc1f90ae7",
      CoffeeID := "c003",
      Quantity := 2,
      CreatedAt := "1970-01-01T00:00:00Z",
      EstimatedDelivery := "1970-01-01T00:10:01Z",
      Status := "Pending" }
    (by decide)).1 (by decide)

/-- C6 (counterexample). With a generator that answers the same id twice, two creations
from the initial ledger are both answered 201 and return the same `order_id`: the returned
ids are not pairwise distinct. -/
theorem order_ids_repeat_with_generator :
    (serve plainTables tickEnv initState
          [Request.createOrder (some ⟨"c003", 2⟩), Request.createOrder (some ⟨"c001", 1⟩)]).1.map
        Response.status = [201, 201] ∧
      (createdOrders (serve plainTables tickEnv initState
          [Request.createOrder (some ⟨"c003", 2⟩), Request.createOrder (some ⟨"c001", 1⟩)]).1).map
        Order.OrderID =
        ["7c9e6679-7425-40de-944b-e07fc1f90ae7", "7c9e6679-7425-40de-944b-e07fc1f90ae7"] ∧
      ¬ ((createdOrders (serve plainTables tickEnv initState
          [Request.createOrder (some ⟨"c003", 2⟩), Request.createOrder (some ⟨"c001", 1⟩)]).1).map
        Order.OrderID).Nodup := by
  refine ⟨by decide, by decide, by decide⟩

/-- C6 (amended). After any run of requests served from the initial ledger, the ledger is
the preloaded ledger followed by the orders the creations returned, and the ids of those
orders are, in order, the first answers of the generator, one per creation, taken over
unchecked. Hence, when those answers are canonical UUID strings and pairwise different, no
id occurs twice in the ledger: the returned ids are pairwise distinct, none is `o12345`,
and each differs from the id of every order that was in the ledger before it. -/
theorem order_ids_from_generator (U : UnicodeTables) (env : Env) (reqs : List Request) :
    (serve U env initState reqs).2.orders =
        orders ++ createdOrders (serve U env initState reqs).1 ∧
      (createdOrders (serve U env initState reqs).1).map Order.OrderID =
        (List.range (createdOrders (serve U env initState reqs).1).length).map env.newUUID ∧
      ((∀ k < (createdOrders (serve U env initState reqs).1).length,
            uuid.isCanonical (env.newUUID k) = true) →
        (∀ i < (createdOrders (serve U env initState reqs).1).length,
            ∀ j < (createdOrders (serve U env initState reqs).1).length,
              env.newUUID i = env.newUUID j → i = j) →
        ((orders ++ createdOrders (serve U env initState reqs).1).map Order.OrderID).Nodup) := by
  have hord := serve_orders U env reqs initState
  have hids := serve_created_ids U env reqs
  have hinv := (serve_ledgerIds U env reqs initState (ledgerIds_initState env)).1
  refine ⟨hord, ?_, ?_⟩
  · rw [hids.2]
    exact hids.1
  · intro hcanon hdistinct
    rw [hids.2] at hcanon hdistinct
    have hnd := ledgerIds_nodup env (serve U env initState reqs).2 hinv hcanon hdistinct
    rw [hord] at hnd
    exact hnd

theorem order_ids_from_generator_witness :
    ((orders ++ createdOrders (serve plainTables twoIdEnv initState
        [Request.createOrder (some ⟨"c003", 2⟩), Request.createOrder (some ⟨"c001", 1⟩)]).1).map
      Order.OrderID).Nodup :=
  (order_ids_from_generator plainTables twoIdEnv
    [Request.createOrder (some ⟨"c003", 2⟩), Request.createOrder (some ⟨"c001", 1⟩)]).2.2
    (by decide) (by decide)

/-- C7. Whatever the ledger: when no order has the requested id, `getOrderByID` answers
404 `Order not found`; when some order has it, `getOrderByID` answers 200 with an order of
the ledger whose `OrderID` is exactly the requested id. -/
theorem getOrderByID_found_iff (st : State) (orderID : String) :
    ((∀ o ∈ st.orders, o.OrderID ≠ orderID) →
        getOrderByID st orderID = ⟨404, Body.error "Order not found"⟩) ∧
      ((∃ o ∈ st.orders, o.OrderID = orderID) →
        ∃ o ∈ st.orders, o.OrderID = orderID ∧ getOrderByID st orderID = ⟨200, Body.order o⟩) :=
  ⟨getOrderByIDLoop_none orderID st.orders, getOrderByIDLoop_found orderID st.orders⟩

theorem getOrderByID_found_iff_witness :
    getOrderByID initState "o99999" = ⟨404, Body.error "Order not found"⟩ ∧
      ∃ o ∈ initState.orders, o.OrderID = "o12345" ∧
        getOrderByID initState "o12345" = ⟨200, Body.order o⟩ :=
  ⟨(getOrderByID_found_iff initState "o99999").1 (by decide),
    (getOrderByID_found_iff initState "o12345").2
      ⟨⟨"o12345", "c003", 2, "2025-03-03T15:30:45+07:00", "2025-03-03T15:40:45+07:00",
        "In Progress"⟩, by decide, rfl⟩⟩

/-- C8. No two catalog entries share an id, and for every product `p` of the catalog
`getCoffeeByID` on `p.ID` answers 200 with a product equal to `p` in every field. -/
theorem getCoffeeByID_of_mem :
    (coffees.map Coffee.ID).Nodup ∧
      ∀ p ∈ coffees, getCoffeeByID p.ID = ⟨200, Body.coffee p⟩ :=
  ⟨coffees_ids_nodup, getCoffeeByIDLoop_mem coffees coffees_ids_nodup⟩

theorem getCoffeeByID_of_mem_witness :
    getCoffeeByID "c002" =
      ⟨200, Body.coffee ⟨"c002", "Americano", "Espresso", 65, "เอสเพรสโซ่ผสมน้ำร้อน"⟩⟩ :=
  getCoffeeByID_of_mem.2 ⟨"c002", "Americano", "Espresso", 65, "เอสเพรสโซ่ผสมน้ำร้อน"⟩
    (by decide)

/-- C9. For every id that is the id of no catalog product, compared character by
character, `getCoffeeByID` answers 404 `Coffee not found`; so it does for `C001` and for
the empty id, while `c001` is answered 200. -/
theorem getCoffeeByID_not_found :
    (∀ id : String, (∀ p ∈ coffees, p.ID ≠ id) →
        getCoffeeByID id = ⟨404, Body.error "Coffee not found"⟩) ∧
      getCoffeeByID "C001" = ⟨404, Body.error "Coffee not found"⟩ ∧
      getCoffeeByID "" = ⟨404, Body.error "Coffee not found"⟩ ∧
      (getCoffeeByID "c001").status = 200 :=
  ⟨fun id h => getCoffeeByIDLoop_none id coffees h, by decide, by decide, by decide⟩

theorem getCoffeeByID_not_found_witness :
    getCoffeeByID "c004" = ⟨404, Body.error "Coffee not found"⟩ :=
  getCoffeeByID_not_found.1 "c004" (by decide)

/-- C10. For every name filter and category filter, `searchCoffeesHandler` answers 200 with
a list that is a sublist of the catalog (catalog order kept), has no product twice, and
whose members are exactly the catalog products satisfying `SpecMatches`: the name filter is
empty or its lower-case form occurs as a substring of the lower-case name, and the category
filter is empty or equals the category case-insensitively as a whole string. -/
theorem searchCoffeesHandler_spec (U : UnicodeTables) (nameFilter categoryFilter : String) :
    ∃ results : List Coffee,
      searchCoffeesHandler U nameFilter categoryFilter = ⟨200, Body.search results⟩ ∧
      results.Sublist coffees ∧ results.Nodup ∧
      ∀ p, p ∈ results ↔ p ∈ coffees ∧ SpecMatches U nameFilter categoryFilter p := by
  refine ⟨coffees.filter (specMatches U nameFilter categoryFilter), ?_, List.filter_sublist _,
    List.Nodup.filter _ coffees_nodup, ?_⟩
  · simp only [searchCoffeesHandler, searchLoop_eq_filter, List.nil_append]
  · intro p
    rw [List.mem_filter, specMatches_iff_SpecMatches]

/-- C11. With both filters empty `searchCoffeesHandler` answers 200 with the whole
catalog, in catalog order: the very list of products that `getAllCoffees` answers, so the
two answers have the same size and the same members. -/
theorem searchCoffeesHandler_empty_filters (U : UnicodeTables) :
    searchCoffeesHandler U "" "" = ⟨200, Body.search coffees⟩ ∧
      getAllCoffees = ⟨200, Body.coffees coffees⟩ ∧
      ∃ results listed : List Coffee,
        (searchCoffeesHandler U "" "").body = Body.search results ∧
        getAllCoffees.body = Body.coffees listed ∧
        results.length = listed.length ∧ ∀ p, p ∈ results ↔ p ∈ listed :=
  ⟨rfl, rfl, coffees, coffees, rfl, rfl, rfl, fun _ => Iff.rfl⟩

/-- C12. For every name filter that is a case variant of `latte` and an empty category
filter, `searchCoffeesHandler` answers 200 with the one-element list holding the product
`c003` (Latte). -/
theorem searchCoffeesHandler_latte_variants (U : UnicodeTables) (nameFilter : String)
    (h : isCaseVariantOf "latte" nameFilter = true) :
    searchCoffeesHandler U nameFilter "" =
      ⟨200, Body.search [⟨"c003", "Latte", "Latte", 75, "เอสเพรสโซ่ผสมนมร้อน"⟩]⟩ := by
  obtain ⟨l⟩ := nameFilter
  have h0 : caseVariantChars ['l', 'a', 't', 't', 'e'] l = true := h
  obtain ⟨c1, l1, rfl, h1, h0⟩ := caseVariantChars_cons _ _ _ h0
  obtain ⟨c2, l2, rfl, h2, h0⟩ := caseVariantChars_cons _ _ _ h0
  obtain ⟨c3, l3, rfl, h3, h0⟩ := caseVariantChars_cons _ _ _ h0
  obtain ⟨c4, l4, rfl, h4, h0⟩ := caseVariantChars_cons _ _ _ h0
  obtain ⟨c5, l5, rfl, h5, h0⟩ := caseVariantChars_cons _ _ _ h0
  have h6 := caseVariantChars_nil _ h0
  subst h6
  rcases h1 with rfl | rfl <;> rcases h2 with rfl | rfl <;> rcases h3 with rfl | rfl <;>
    rcases h4 with rfl | rfl <;> rcases h5 with rfl | rfl <;> rfl

theorem searchCoffeesHandler_latte_variants_witness :
    searchCoffeesHandler plainTables "LaTtE" "" =
      ⟨200, Body.search [⟨"c003", "Latte", "Latte", 75, "เอสเพรสโซ่ผสมนมร้อน"⟩]⟩ :=
  searchCoffeesHandler_latte_variants plainTables "LaTtE" (by decide)

/-- C13. For an empty name filter and every category filter that is a case variant of
`espresso`, `searchCoffeesHandler` answers 200 with exactly the products `c001` (Espresso)
and `c002` (Americano), in that order; Latte is not in the answer. -/
theorem searchCoffeesHandler_espresso_variants (U : UnicodeTables) (categoryFilter : String)
    (h : isCaseVariantOf "espresso" categoryFilter = true) :
    searchCoffeesHandler U "" categoryFilter =
      ⟨200, Body.search [⟨"c001", "Espresso", "Espresso", 60, "เข้มข้น กลมกล่อม"⟩,
        ⟨"c002", "Americano", "Espresso", 65, "เอสเพรสโซ่ผสมน้ำร้อน"⟩]⟩ := by
  obtain ⟨l⟩ := categoryFilter
  have h0 : caseVariantChars ['e', 's', 'p', 'r', 'e', 's', 's', 'o'] l = true := h
  obtain ⟨c1, l1, rfl, h1, h0⟩ := caseVariantChars_cons _ _ _ h0
  obtain ⟨c2, l2, rfl, h2, h0⟩ := caseVariantChars_cons _ _ _ h0
  obtain ⟨c3, l3, rfl, h3, h0⟩ := caseVariantChars_cons _ _ _ h0
  obtain ⟨c4, l4, rfl, h4, h0⟩ := caseVariantChars_cons _ _ _ h0
  obtain ⟨c5, l5, rfl, h5, h0⟩ := caseVariantChars_cons _ _ _ h0
  obtain ⟨c6, l6, rfl, h6, h0⟩ := caseVariantChars_cons _ _ _ h0
  obtain ⟨c7, l7, rfl, h7, h0⟩ := caseVariantChars_cons _ _ _ h0
  obtain ⟨c8, l8, rfl, h8, h0⟩ := caseVariantChars_cons _ _ _ h0
  have h9 := caseVariantChars_nil _ h0
  subst h9
  rcases h1 with rfl | rfl <;> rcases h2 with rfl | rfl <;> rcases h3 with rfl | rfl <;>
    rcases h4 with rfl | rfl <;> rcases h5 with rfl | rfl <;> rcases h6 with rfl | rfl <;>
    rcases h7 with rfl | rfl <;> rcases h8 with rfl | rfl <;> rfl

theorem searchCoffeesHandler_espresso_variants_witness :
    searchCoffeesHandler plainTables "" "espresso" =
      ⟨200, Body.search [⟨"c001", "Espresso", "Espresso", 60, "เข้มข้น กลมกล่อม"⟩,
        ⟨"c002", "Americano", "Espresso", 65, "เอสเพรสโซ่ผสมน้ำร้อน"⟩]⟩ :=
  searchCoffeesHandler_espresso_variants plainTables "espresso" (by decide)

/-- C14. For every name filter and category filter `searchCoffeesHandler` answers 200 with
a sequence of products, never an error; when no product satisfies `specMatches` the
sequence is empty; a non-empty category filter whose length is the length of no category
matches nothing, and so the category filters `esp` and `latt`, with any name filter, give
the empty sequence. -/
theorem searchCoffeesHandler_never_fails (U : UnicodeTables) (nameFilter categoryFilter : String) :
    (searchCoffeesHandler U nameFilter categoryFilter).status = 200 ∧
      (∃ results, (searchCoffeesHandler U nameFilter categoryFilter).body = Body.search results) ∧
      ((∀ p ∈ coffees, specMatches U nameFilter categoryFilter p = false) →
        searchCoffeesHandler U nameFilter categoryFilter = ⟨200, Body.search []⟩) ∧
      (categoryFilter ≠ "" → (∀ p ∈ coffees, p.Type_.length ≠ categoryFilter.length) →
        searchCoffeesHandler U nameFilter categoryFilter = ⟨200, Body.search []⟩) ∧
      searchCoffeesHandler U nameFilter "esp" = ⟨200, Body.search []⟩ ∧
      searchCoffeesHandler U nameFilter "latt" = ⟨200, Body.search []⟩ := by
  refine ⟨rfl, ⟨_, rfl⟩, ?_, searchLoop_length_mismatch U nameFilter categoryFilter,
    searchLoop_length_mismatch U nameFilter "esp" (by decide) (by decide),
    searchLoop_length_mismatch U nameFilter "latt" (by decide) (by decide)⟩
  intro hno
  simp only [searchCoffeesHandler, searchLoop_eq_filter, List.nil_append]
  have hnil : coffees.filter (specMatches U nameFilter categoryFilter) = [] := by
    rw [List.filter_eq_nil_iff]
    intro p hp hm
    rw [hno p hp] at hm
    exact absurd hm (by decide)
  rw [hnil]

theorem searchCoffeesHandler_never_fails_witness :
    searchCoffeesHandler plainTables "mocha" "" = ⟨200, Body.search []⟩ ∧
      searchCoffeesHandler plainTables "" "espress" = ⟨200, Body.search []⟩ :=
  ⟨(searchCoffeesHandler_never_fails plainTables "mocha" "").2.2.1 (by decide),
    (searchCoffeesHandler_never_fails plainTables "" "espress").2.2.2.1 (by decide) (by decide)⟩

/-- C15. Append-only ledger. For every state and every request to one of the five routes,
the ledger afterwards has the ledger before as a prefix; a request that is not a creation
and any request not answered 201 leave the state, the ledger included, as it was; a
request answered 201 returns an order and extends the ledger by exactly that order at its
end; hence over any run of requests the ledger before is a prefix of the ledger after. -/
theorem ledger_append_only (U : UnicodeTables) (env : Env) (st : State) (req : Request) :
    st.orders <+: (handle U env st req).2.orders ∧
      ((∀ body, req ≠ Request.createOrder body) → (handle U env st req).2 = st) ∧
      ((handle U env st req).1.status ≠ 201 → (handle U env st req).2 = st) ∧
      ((handle U env st req).1.status = 201 →
        ∃ o, (handle U env st req).1 = ⟨201, Body.order o⟩ ∧
          (handle U env st req).2.orders = st.orders ++ [o]) ∧
      ∀ reqs : List Request, st.orders <+: (serve U env st reqs).2.orders := by
  have hcases := handle_cases U env st req
  refine ⟨?_, ?_, handle_unchanged U env st req, ?_, fun reqs => serve_prefix U env reqs st⟩
  · rcases hcases with ⟨o, _, hs, _⟩ | ⟨_, hs⟩
    · rw [hs]; exact List.prefix_append _ _
    · rw [hs]
  · intro hreq
    cases req with
    | getAllCoffees => rfl
    | getCoffeeByID id => rfl
    | searchCoffees n t => rfl
    | getOrderByID id => rfl
    | createOrder body => exact absurd rfl (hreq body)
  · intro h201
    rcases hcases with ⟨o, hr, hs, _⟩ | ⟨hne, _⟩
    · exact ⟨o, hr, by rw [hs]⟩
    · exact absurd h201 hne

theorem ledger_append_only_witness :
    (handle plainTables tickEnv initState (Request.getOrderByID "o12345")).2 = initState ∧
      (handle plainTables tickEnv initState (Request.createOrder (some ⟨"c001", 0⟩))).2 =
        initState ∧
      ∃ o, (handle plainTables tickEnv initState (Request.createOrder (some ⟨"c001", 1⟩))).1 =
          ⟨201, Body.order o⟩ ∧
        (handle plainTables tickEnv initState (Request.createOrder (some ⟨"c001", 1⟩))).2.orders =
          initState.orders ++ [o] :=
  ⟨(ledger_append_only plainTables tickEnv initState (Request.getOrderByID "o12345")).2.1
      (fun _ h => Request.noConfusion h),
    (ledger_append_only plainTables tickEnv initState
      (Request.createOrder (some ⟨"c001", 0⟩))).2.2.1 (by decide),
    (ledger_append_only plainTables tickEnv initState
      (Request.createOrder (some ⟨"c001", 1⟩))).2.2.2.1 (by decide)⟩

/-- C16. Ledger invariant. In every state reached from the initial ledger by a run of
requests, every order of the ledger has a positive quantity, the id of a catalog product
as its coffee id and one of the statuses `Pending`, `In Progress`, `Completed`,
`Cancelled`; and every order returned by a creation during the run has the status
`Pending`. -/
theorem ledger_orders_valid (U : UnicodeTables) (env : Env) (reqs : List Request) :
    (∀ o ∈ (serve U env initState reqs).2.orders, ValidOrder o) ∧
      ∀ o ∈ createdOrders (serve U env initState reqs).1, o.Status = "Pending" := by
  have hcreated := serve_created_valid U env reqs initState
  refine ⟨?_, fun o ho => (hcreated o ho).2⟩
  intro o ho
  rw [serve_orders, List.mem_append] at ho
  rcases ho with h | h
  · exact validOrder_preloaded o h
  · exact (hcreated o h).1

theorem ledger_orders_valid_witness :
    ValidOrder
        { OrderID := "7c9e6679-7425-40de-944b-e07fc1f90ae7",
          CoffeeID := "c002",
          Quantity := 3,
          CreatedAt := "1970-01-01T00:00:00Z",
          EstimatedDelivery := "1970-01-01T00:10:01Z",
          Status := "Pending" } ∧
      ({ OrderID := "7c9e6679-7425-40de-944b-e07fc1f90ae7",
          CoffeeID := "c002",
          Quantity := 3,
          CreatedAt := "1970-01-01T00:00:00Z",
          EstimatedDelivery := "1970-01-01T00:10:01Z",
          Status := "Pending" } : Order).Status = "Pending" :=
  ⟨(ledger_orders_valid plainTables tickEnv [Request.createOrder (some ⟨"c002", 3⟩)]).1 _
      (by decide),
    (ledger_orders_valid plainTables tickEnv [Request.createOrder (some ⟨"c002", 3⟩)]).2 _
      (by decide)⟩

/-- C17. For every id, `findCoffeeByID` returns `nil` exactly when `getCoffeeByID` answers
404, in which case the answer is `Coffee not found`; otherwise the product it points to is
the product `getCoffeeByID` answers with 200; and that product is the first catalog entry
whose id equals the requested id. -/
theorem findCoffeeByID_agrees_getCoffeeByID (id : String) :
    (findCoffeeByID id = none ↔ (getCoffeeByID id).status = 404) ∧
      (findCoffeeByID id = none → getCoffeeByID id = ⟨404, Body.error "Coffee not found"⟩) ∧
      (∀ c, findCoffeeByID id = some c → getCoffeeByID id = ⟨200, Body.coffee c⟩) ∧
      findCoffeeByID id = specFirstWithID id := by
  have hget : getCoffeeByID id =
      match findCoffeeByID id with
      | some c => ⟨200, Body.coffee c⟩
      | none => ⟨404, Body.error "Coffee not found"⟩ := getCoffeeByIDLoop_eq_find id coffees
  refine ⟨?_, ?_, ?_, findCoffeeByIDLoop_eq_find id coffees⟩
  · cases hf : findCoffeeByID id with
    | none => rw [hget, hf]; simp
    | some c => rw [hget, hf]; simp
  · intro hf
    rw [hget, hf]
  · intro c hf
    rw [hget, hf]

theorem findCoffeeByID_agrees_getCoffeeByID_witness :
    getCoffeeByID "c009" = ⟨404, Body.error "Coffee not found"⟩ ∧
      getCoffeeByID "c001" =
        ⟨200, Body.coffee ⟨"c001", "Espresso", "Espresso", 60, "เข้มข้น กลมกล่อม"⟩⟩ :=
  ⟨(findCoffeeByID_agrees_getCoffeeByID "c009").2.1 (by decide),
    (findCoffeeByID_agrees_getCoffeeByID "c001").2.2.1 _ (by decide)⟩

end CoffeeShop
